import Mathlib

/-!
Verification development for the resumable file-transfer programs
`src/Client/client.c` and `src/Server/server.c`.

The C programs are embedded shallowly:

* File contents are `List Nat` (one `Nat` per byte); a file that may be
  absent is an `Option (List Nat)`.
* The TCP stream is a byte queue: each underlying `recv` returns up to the
  requested count from the front of the queue, and an empty queue means the
  peer has closed the connection (recv returns 0).
* The stateful handlers are translated into pure functions that additionally
  return the ordered trace of wire events they performed, so that ordering
  claims ("the reply is sent before any file bytes") are statable.
* The reliable-stream primitives `send_all` / `recv_all` are modelled one
  level lower, over an explicit trace of results of the underlying
  `send`/`recv` calls together with the C global `errno`, because the claims
  about them concern exactly that level.
-/

/-- Relevant values of the C global `errno`. -/
inductive Errno where
  | eintr
  | eagain
  | eother
deriving DecidableEq

/-- Result of one underlying `send`/`recv` call: `bytes n` means the call
moved `n` bytes (`n = 0` is the zero-length result, i.e. peer closed, which
leaves `errno` unchanged); `fail e` means the call returned `-1` after
setting `errno` to `e`. -/
inductive NetEv where
  | bytes (n : Nat)
  | fail (e : Errno)
deriving DecidableEq

/-- Result of a `send_all` / `recv_all` call: `ok n` models returning the
non-negative count `n`, `fail` models returning `-1`, and `blocked` means the
event trace ran out while the loop was still waiting (the C code would block
in the underlying call). -/
inductive IOResult where
  | ok (n : Nat)
  | fail
  | blocked
deriving DecidableEq

namespace Server

/-- Loop of `recv_all` in `src/Server/server.c`: accumulate `total`; on
`n <= 0` it retries iff `errno = EINTR` (a `fail` event sets `errno` first, a
`bytes 0` event — the peer-closed case — leaves `errno` unchanged), otherwise
it returns `-1`.  The `min` caps the event's count at the requested
remainder, as the underlying `recv` never returns more than asked. -/
def recv_all_aux (len : Nat) : Nat → Errno → List NetEv → IOResult
  | total, _, [] =>
      if len ≤ total then IOResult.ok total else IOResult.blocked
  | total, errno, NetEv.bytes n :: rest =>
      if len ≤ total then IOResult.ok total
      else
        let got := min n (len - total)
        if got = 0 then
          if errno = Errno.eintr then recv_all_aux len total errno rest else IOResult.fail
        else recv_all_aux len (total + got) errno rest
  | total, _, NetEv.fail e :: rest =>
      if len ≤ total then IOResult.ok total
      else if e = Errno.eintr then recv_all_aux len total e rest else IOResult.fail

/-- Model of `recv_all(sock, buf, len)` in `src/Server/server.c`, given the
value of `errno` on entry and the trace of underlying `recv` results. -/
def recv_all (len : Nat) (errno : Errno) (trace : List NetEv) : IOResult :=
  recv_all_aux len 0 errno trace

/-- Model of the loop of `send_all` in `src/Server/server.c`; its body
handles `n <= 0` exactly like `recv_all` there. -/
def send_all_aux (len : Nat) : Nat → Errno → List NetEv → IOResult
  | total, _, [] =>
      if len ≤ total then IOResult.ok total else IOResult.blocked
  | total, errno, NetEv.bytes n :: rest =>
      if len ≤ total then IOResult.ok total
      else
        let sent := min n (len - total)
        if sent = 0 then
          if errno = Errno.eintr then send_all_aux len total errno rest else IOResult.fail
        else send_all_aux len (total + sent) errno rest
  | total, _, NetEv.fail e :: rest =>
      if len ≤ total then IOResult.ok total
      else if e = Errno.eintr then send_all_aux len total e rest else IOResult.fail

/-- Model of `send_all(sock, buf, len)` in `src/Server/server.c`. -/
def send_all (len : Nat) (errno : Errno) (trace : List NetEv) : IOResult :=
  send_all_aux len 0 errno trace

end Server

namespace Client

/-- Loop of `recv_all` in `src/Client/client.c`: `r < 0` retries on `EINTR`
and (after a short sleep) on `EAGAIN`/`EWOULDBLOCK` and fails otherwise,
while `r = 0` (peer closed) returns `-1` unconditionally; `left` counts the
bytes still missing. -/
def recv_all_aux (len : Nat) : Nat → List NetEv → IOResult
  | left, [] =>
      if left = 0 then IOResult.ok len else IOResult.blocked
  | left, NetEv.bytes n :: rest =>
      if left = 0 then IOResult.ok len
      else
        let r := min n left
        if r = 0 then IOResult.fail
        else recv_all_aux len (left - r) rest
  | left, NetEv.fail e :: rest =>
      if left = 0 then IOResult.ok len
      else if e = Errno.eintr ∨ e = Errno.eagain then recv_all_aux len left rest
      else IOResult.fail

/-- Model of `recv_all(fd, buf, len)` in `src/Client/client.c`. -/
def recv_all (len : Nat) (trace : List NetEv) : IOResult :=
  recv_all_aux len len trace

/-- Loop of `send_all` in `src/Client/client.c`: same shape as its
`recv_all`, with `s = 0` likewise returning `-1`. -/
def send_all_aux (len : Nat) : Nat → List NetEv → IOResult
  | left, [] =>
      if left = 0 then IOResult.ok len else IOResult.blocked
  | left, NetEv.bytes n :: rest =>
      if left = 0 then IOResult.ok len
      else
        let s := min n left
        if s = 0 then IOResult.fail
        else send_all_aux len (left - s) rest
  | left, NetEv.fail e :: rest =>
      if left = 0 then IOResult.ok len
      else if e = Errno.eintr ∨ e = Errno.eagain then send_all_aux len left rest
      else IOResult.fail

/-- Model of `send_all(fd, buf, len)` in `src/Client/client.c`. -/
def send_all (len : Nat) (trace : List NetEv) : IOResult :=
  send_all_aux len len trace

end Client

namespace ByteOrder

/-- Model of libc `htonl`/`ntohl` on a little-endian host: the 32-bit byte
swap (the argument is a `uint32_t`, hence the `% 256` on the top byte). -/
def bswap32 (x : Nat) : Nat :=
  x % 256 * 16777216 + x / 256 % 256 * 65536 + x / 65536 % 256 * 256 + x / 16777216 % 256

end ByteOrder

namespace Client

/-- Model of `htonll` in `src/Client/client.c` on a little-endian host:
`(htonl (v AND 0xffffffff) << 32) OR htonl (v >> 32)` with `htonl` the
32-bit byte swap. -/
def htonll (v : Nat) : Nat :=
  ByteOrder.bswap32 (v % 4294967296) * 4294967296 + ByteOrder.bswap32 (v / 4294967296)

/-- Model of `ntohll` in `src/Client/client.c` (same shape as `htonll`,
with `ntohl` in place of `htonl`). -/
def ntohll (v : Nat) : Nat :=
  ByteOrder.bswap32 (v % 4294967296) * 4294967296 + ByteOrder.bswap32 (v / 4294967296)

end Client

namespace Server

/-- Model of `htonll` in `src/Server/server.c` on a little-endian host. -/
def htonll (v : Nat) : Nat :=
  ByteOrder.bswap32 (v % 4294967296) * 4294967296 + ByteOrder.bswap32 (v / 4294967296)

/-- Model of `ntohll` in `src/Server/server.c`. -/
def ntohll (v : Nat) : Nat :=
  ByteOrder.bswap32 (v % 4294967296) * 4294967296 + ByteOrder.bswap32 (v / 4294967296)

end Server

/-- One wire event performed by a peer, from that peer's own point of view.
Control fields carry their decoded values (the byte-order conversion is
verified separately in the C8 theorems); `sendFileBytes`/`recvFileBytes`
carry one chunk of file data. -/
inductive Ev where
  | recvU32 (v : Nat)
  | recvStr (s : String)
  | recvU64 (v : Nat)
  | sendU32 (v : Nat)
  | sendStr (s : String)
  | sendU64 (v : Nat)
  | recvFileBytes (b : List Nat)
  | sendFileBytes (b : List Nat)
deriving DecidableEq

/-- Concatenation of all file-data bytes sent in a trace. -/
def sentData : List Ev → List Nat
  | [] => []
  | Ev.sendFileBytes b :: r => b ++ sentData r
  | _ :: r => sentData r

/-- The 8-byte control values sent in a trace, in order. -/
def sentU64s : List Ev → List Nat
  | [] => []
  | Ev.sendU64 v :: r => v :: sentU64s r
  | _ :: r => sentU64s r

/-- Whether an event only receives (a dropped request sends nothing). -/
def Ev.isRecv : Ev → Bool
  | Ev.recvU32 _ => true
  | Ev.recvStr _ => true
  | Ev.recvU64 _ => true
  | Ev.recvFileBytes _ => true
  | _ => false

/-- The file-data events of a trace (empty = no file bytes exchanged). -/
def dataEvents (tr : List Ev) : List Ev :=
  tr.filter fun e =>
    match e with
    | Ev.sendFileBytes _ => true
    | Ev.recvFileBytes _ => true
    | _ => false

/-- Effect of writing buffer `d` at byte position `pos` of a file whose
current content is `c`: positions past the current end are zero-filled, as
POSIX does when a write follows a seek beyond EOF. -/
def writeAt (c : List Nat) (pos : Nat) (d : List Nat) : List Nat :=
  c.take pos ++ List.replicate (pos - c.length) 0 ++ d ++ c.drop (pos + d.length)

/-- Little-endian in-memory byte layout of a 64-bit value (byte 0 first). -/
def u64BytesLE (x : Nat) : List Nat :=
  [x % 256, x / 256 % 256, x / 65536 % 256, x / 16777216 % 256,
   x / 4294967296 % 256, x / 1099511627776 % 256,
   x / 281474976710656 % 256, x / 72057594037927936 % 256]

/-- Big-endian (network byte order) encoding of a 64-bit value (most
significant byte first). -/
def u64BytesBE (x : Nat) : List Nat :=
  [x / 72057594037927936 % 256, x / 281474976710656 % 256,
   x / 1099511627776 % 256, x / 4294967296 % 256,
   x / 16777216 % 256, x / 65536 % 256, x / 256 % 256, x % 256]

namespace Server

/-- Result of one server request: the wire events performed (in order), the
state of the named file afterwards, and whether the handler returned 0. -/
structure SrvOutcome where
  trace : List Ev
  file : Option (List Nat)
  ok : Bool
deriving DecidableEq

/-- The `BUF_SIZE` constant of `src/Server/server.c`. -/
def BUF_SIZE : Nat := 8192

/-- Size the server's `stat` observes for the named file (`ENOENT` leaves
`existing = 0` in `handle_client`). -/
def existingSize : Option (List Nat) → Nat
  | none => 0
  | some f => f.length

/-- Receive loop of `handle_upload` in `src/Server/server.c`: while
`received < filesize`, receive up to `min BUF_SIZE (filesize - received)`
bytes from the stream, fail if the client closed (empty stream), else write
the chunk at the current position and continue. -/
def recvLoop (filesize received : Nat) (content stream : List Nat) :
    List Ev × List Nat × Bool :=
  if h : received < filesize then
    let to_read := min BUF_SIZE (filesize - received)
    let chunk := stream.take to_read
    if hc : chunk = [] then ([], content, false)
    else
      let r := recvLoop filesize (received + chunk.length)
        (writeAt content received chunk) (stream.drop to_read)
      (Ev.recvFileBytes chunk :: r.1, r.2)
  else ([], content, true)
termination_by filesize - received
decreasing_by
  have hlen : 0 < chunk.length := List.length_pos.mpr hc
  simp only [chunk, to_read] at hlen ⊢
  omega

/-- Model of `handle_upload(sock, filename, filesize, offset)` in
`src/Server/server.c`: open (creating an empty file if absent), truncate to
`offset` if the existing content is longer, seek to `offset`, then run the
receive loop.  `stream` is the queue of file bytes the client sends before
closing. -/
def handle_upload (file : Option (List Nat)) (filesize offset : Nat)
    (stream : List Nat) : SrvOutcome :=
  let base0 := file.getD []
  let base := if base0.length > offset then base0.take offset else base0
  let r := recvLoop filesize offset base stream
  ⟨r.1, some r.2.1, r.2.2⟩

/-- Send loop of `handle_download`: `fread` chunks of `BUF_SIZE` bytes until
EOF, sending each. -/
def sendLoop (rest : List Nat) : List Ev :=
  if h : rest = [] then []
  else Ev.sendFileBytes (rest.take BUF_SIZE) :: sendLoop (rest.drop BUF_SIZE)
termination_by rest.length
decreasing_by
  have hlen : 0 < rest.length := List.length_pos.mpr h
  simp only [List.length_drop, BUF_SIZE]
  omega

/-- Model of `handle_download(sock, filename, client_offset)` in
`src/Server/server.c`: fail if the file cannot be opened; otherwise compute
`server_offset = client_offset > filesize ? filesize : client_offset`, send
`filesize` then `server_offset`, and — unless `server_offset >= filesize` —
seek to `server_offset` and stream the rest of the file. -/
def handle_download (file : Option (List Nat)) (client_offset : Nat) : SrvOutcome :=
  match file with
  | none => ⟨[], none, false⟩
  | some f =>
    let filesize := f.length
    let server_offset := if client_offset > filesize then filesize else client_offset
    if server_offset ≥ filesize then
      ⟨[Ev.sendU64 filesize, Ev.sendU64 server_offset], some f, true⟩
    else
      ⟨[Ev.sendU64 filesize, Ev.sendU64 server_offset] ++ sendLoop (f.drop server_offset),
        some f, true⟩

/-- Model of `handle_client(client_sock)` in `src/Server/server.c`.  The
request fields arrive already decoded: `mode_len` and `name_len` are the
length prefixes, `mode` and `name` the strings read for them, `x` the 8-byte
value that follows (declared size for upload, local offset for download), and
`stream` the file bytes an uploading client sends.  Out-of-range lengths and
unknown modes jump to `cleanup`, which only closes the socket. -/
def handle_client (mode_len : Nat) (mode : String) (name_len : Nat) (name : String)
    (file : Option (List Nat)) (x : Nat) (stream : List Nat) : SrvOutcome :=
  if mode_len = 0 ∨ 32 ≤ mode_len then
    ⟨[Ev.recvU32 mode_len], file, false⟩
  else if name_len = 0 ∨ 512 ≤ name_len then
    ⟨[Ev.recvU32 mode_len, Ev.recvStr mode, Ev.recvU32 name_len], file, false⟩
  else if mode = "upload" then
    let filesize := x
    let existing := existingSize file
    let agreed := if existing > filesize then filesize else existing
    let r := handle_upload file filesize agreed stream
    ⟨[Ev.recvU32 mode_len, Ev.recvStr mode, Ev.recvU32 name_len, Ev.recvStr name,
        Ev.recvU64 x, Ev.sendU64 agreed] ++ r.trace, r.file, r.ok⟩
  else if mode = "download" then
    let r := handle_download file x
    ⟨[Ev.recvU32 mode_len, Ev.recvStr mode, Ev.recvU32 name_len, Ev.recvStr name,
        Ev.recvU64 x] ++ r.trace, r.file, r.ok⟩
  else
    ⟨[Ev.recvU32 mode_len, Ev.recvStr mode, Ev.recvU32 name_len, Ev.recvStr name],
      file, false⟩

end Server

/-- A toy filesystem: path → file content (`none` = no such file). -/
def FileSys := String → Option String

/-- Point update of a filesystem (`none` removes the file). -/
def fsWrite (fs : FileSys) (p : String) (c : Option String) : FileSys :=
  fun q => if q = p then c else fs q

/-- Content `write_progress_atomic` records for value `v`: the decimal
digits followed by a newline (the client's `fprintf` format). -/
def encodeProgress (v : Nat) : String := toString v ++ "\n"

namespace Client

/-- The `CHUNK` constant of `src/Client/client.c`. -/
def CHUNK : Nat := 8192

/-- Model of `write_progress_atomic(fname, val)` in `src/Client/client.c` as
the sequence of filesystem states the operation passes through: the initial
state, the creation/truncation of `fname.progress.tmp` and every partial
write of it by `fprintf` (then `fflush`+`fsync`, which change no visible
state), and finally the atomic `rename` of the temporary over
`fname.progress`, which installs the full content and removes the temporary
in one step. -/
def write_progress_atomic (fs : FileSys) (fname : String) (v : Nat) : List FileSys :=
  let tmp := fname ++ ".progress.tmp"
  let prog := fname ++ ".progress"
  let content := encodeProgress v
  let partials := (List.range (content.length + 1)).map
    (fun k => fsWrite fs tmp (some (content.take k)))
  let full := fsWrite fs tmp (some content)
  let renamed := fsWrite (fsWrite full prog (some content)) tmp none
  fs :: partials ++ [renamed]

/-- Whether a send of cumulative data-byte count `n` still succeeds, on a
connection that accepts `cap` file-data bytes before breaking (`none` = the
connection never breaks).  Control messages are assumed delivered; a broken
send models the mid-stream I/O failures of claim C7. -/
def sendOk : Option Nat → Nat → Bool
  | none, _ => true
  | some c, n => n ≤ c

/-- Result of a client streaming loop: wire events, the local file content
written so far (downloads), the ledger value on disk, the progress values
recorded during the loop (in order), and whether the loop completed. -/
structure LoopRes where
  trace : List Ev
  content : List Nat
  ledger : Option Nat
  recorded : List Nat
  ok : Bool
deriving DecidableEq

/-- Result of one whole client transfer: wire events, the ledger state, the
progress values recorded, the return code (`ok` = returned 0), and the local
file afterwards. -/
structure CliOutcome where
  trace : List Ev
  ledger : Option Nat
  recorded : List Nat
  ok : Bool
  file : Option (List Nat)
deriving DecidableEq

/-- Send loop of `client_upload`: `fread` up to `CHUNK` bytes from the part
of the file that remains (`rest`), `send_all` it (failing once the
connection's capacity is exceeded), then atomically record
`total_sent = total + bytes sent so far`. -/
def uploadLoop (cap : Option Nat) (rest : List Nat) (total sentBytes : Nat)
    (ledger : Option Nat) : LoopRes :=
  if h : rest = [] then ⟨[], [], ledger, [], true⟩
  else
    let chunk := rest.take CHUNK
    if sendOk cap (sentBytes + chunk.length) then
      let total' := total + chunk.length
      let r := uploadLoop cap (rest.drop CHUNK) total' (sentBytes + chunk.length) (some total')
      ⟨Ev.sendFileBytes chunk :: r.trace, [], r.ledger, total' :: r.recorded, r.ok⟩
    else ⟨[], [], ledger, [], false⟩
termination_by rest.length
decreasing_by
  have hlen : 0 < rest.length := List.length_pos.mpr h
  simp only [List.length_drop, CHUNK]
  omega

/-- Model of `client_upload(sock, filename)` in `src/Client/client.c`: send
the mode and filename, `stat` the local file (failing if absent), send its
size, receive `agreed` from the server, reject `agreed > filesize` as a
protocol violation, then stream `[agreed, filesize)` recording progress after
each chunk; on completion remove the progress file. -/
def client_upload (name : String) (file : Option (List Nat)) (agreed : Nat)
    (cap : Option Nat) (ledger : Option Nat) : CliOutcome :=
  let ctl := [Ev.sendU32 ("upload".length), Ev.sendStr "upload",
              Ev.sendU32 name.length, Ev.sendStr name]
  match file with
  | none => ⟨ctl, ledger, [], false, none⟩
  | some f =>
    let filesize := f.length
    let ctl2 := ctl ++ [Ev.sendU64 filesize, Ev.recvU64 agreed]
    if agreed > filesize then ⟨ctl2, ledger, [], false, some f⟩
    else
      let r := uploadLoop cap (f.drop agreed) agreed 0 ledger
      if r.ok then ⟨ctl2 ++ r.trace, none, r.recorded, true, some f⟩
      else ⟨ctl2 ++ r.trace, r.ledger, r.recorded, false, some f⟩

/-- Receive loop of `client_download`: while `total < filesize`, `recv_all`
exactly `want = min CHUNK (filesize - total)` bytes (failing if the server's
stream has fewer), write them at the current position, flush, and atomically
record the new total. -/
def downLoop (filesize total : Nat) (content stream : List Nat)
    (ledger : Option Nat) : LoopRes :=
  if h : total < filesize then
    let want := min CHUNK (filesize - total)
    if stream.length < want then ⟨[], content, ledger, [], false⟩
    else
      let chunk := stream.take want
      let total' := total + want
      let r := downLoop filesize total' (writeAt content total chunk) (stream.drop want) (some total')
      ⟨Ev.recvFileBytes chunk :: r.trace, r.content, r.ledger, total' :: r.recorded, r.ok⟩
  else ⟨[], content, ledger, [], true⟩
termination_by filesize - total
decreasing_by
  simp only [CHUNK]
  omega

/-- Model of `client_download(sock, filename)` in `src/Client/client.c`:
open the local file (creating an empty one if absent) and take its length as
`local_offset`; send the mode, filename and `local_offset`; receive
`filesize` and `server_offset`, rejecting `server_offset > filesize` as a
protocol violation; seek to `server_offset` and run the receive loop; on
completion remove the progress file.  `stream` is the queue of file bytes
the server sends before closing. -/
def client_download (name : String) (file : Option (List Nat))
    (filesize server_offset : Nat) (stream : List Nat)
    (ledger : Option Nat) : CliOutcome :=
  let f0 := file.getD []
  let local_offset := f0.length
  let ctl := [Ev.sendU32 ("download".length), Ev.sendStr "download",
              Ev.sendU32 name.length, Ev.sendStr name, Ev.sendU64 local_offset,
              Ev.recvU64 filesize, Ev.recvU64 server_offset]
  if server_offset > filesize then ⟨ctl, ledger, [], false, some f0⟩
  else
    let r := downLoop filesize server_offset f0 stream ledger
    if r.ok then ⟨ctl ++ r.trace, none, r.recorded, true, some r.content⟩
    else ⟨ctl ++ r.trace, r.ledger, r.recorded, false, some r.content⟩

end Client

/-- The progress value the ledger holds after a run that recorded the values
`recs` (in order) on top of an initial ledger state `d`: the last recorded
value, or `d` when nothing was recorded. -/
def lastRecorded (d : Option Nat) : List Nat → Option Nat
  | [] => d
  | v :: vs => lastRecorded (some v) vs

/-- One full download exchange against the real server: the server is asked
for the named file at the client's local offset, and its reply values (the
first two 8-byte fields it sends) and streamed bytes are fed to the client. -/
def download_session (name : String) (serverFile clientFile : List Nat)
    (ledger : Option Nat) : Client.CliOutcome :=
  let srv := Server.handle_download (some serverFile) clientFile.length
  let us := sentU64s srv.trace
  Client.client_download name (some clientFile) (us.getD 0 0) (us.getD 1 0)
    (sentData srv.trace) ledger

/-- Writing at the end of a file appends. -/
theorem writeAt_length_eq (c d : List Nat) : writeAt c c.length d = c ++ d := by
  unfold writeAt
  rw [List.take_length, Nat.sub_self, List.replicate_zero,
    List.drop_eq_nil_of_le (Nat.le_add_right _ _)]
  simp

/-- Net effect of the server's upload receive loop when the write position
starts at the end of the current content (as `handle_client` arranges): the
content is extended with the first `filesize - received` bytes of the
stream, the loop succeeds iff the stream holds at least that many bytes, and
the loop only receives. -/
theorem Server.recvLoop_spec (fuel : Nat) : ∀ filesize received content stream,
    filesize - received ≤ fuel → content.length = received →
    (Server.recvLoop filesize received content stream).2.1
        = content ++ stream.take (filesize - received) ∧
    ((Server.recvLoop filesize received content stream).2.2 = true ↔
        filesize - received ≤ stream.length) ∧
    ∀ e ∈ (Server.recvLoop filesize received content stream).1,
      ∃ b, e = Ev.recvFileBytes b := by
  induction fuel with
  | zero =>
    intro filesize received content stream hf hc0
    rw [Server.recvLoop.eq_def, dif_neg (by omega : ¬received < filesize)]
    have h0 : filesize - received = 0 := by omega
    simp [h0]
  | succ n ihn =>
    intro filesize received content stream hf hc0
    subst hc0
    by_cases hlt : content.length < filesize
    · rw [Server.recvLoop.eq_def, dif_pos hlt]
      simp only [Server.BUF_SIZE]
      by_cases hc : stream.take (min 8192 (filesize - content.length)) = []
      · rw [dif_pos hc]
        have h3 : min 8192 (filesize - content.length) ≠ 0 := by omega
        rcases List.take_eq_nil_iff.mp hc with h1 | h1
        · exact absurd h1 h3
        · subst h1
          refine ⟨by simp, ?_, by simp⟩
          simp only [List.length_nil]
          constructor
          · intro hfalse; cases hfalse
          · omega
      · rw [dif_neg hc]
        have hpos : 0 < (stream.take (min 8192 (filesize - content.length))).length :=
          List.length_pos.mpr hc
        rw [writeAt_length_eq]
        obtain ⟨ih1, ih2, ih3⟩ := ihn filesize
          (content.length + (stream.take (min 8192 (filesize - content.length))).length)
          (content ++ stream.take (min 8192 (filesize - content.length)))
          (stream.drop (min 8192 (filesize - content.length)))
          (by omega) (by simp)
        refine ⟨?_, ?_, ?_⟩
        · show (Server.recvLoop filesize _ _ _).2.1 = _
          rw [ih1, List.append_assoc]
          congr 1
          by_cases hs : min 8192 (filesize - content.length) ≤ stream.length
          · have hclen : (stream.take (min 8192 (filesize - content.length))).length
                = min 8192 (filesize - content.length) := by
              simp [List.length_take]; omega
            rw [hclen, ← List.take_add]
            congr 1
            omega
          · push_neg at hs
            have hceq : stream.take (min 8192 (filesize - content.length)) = stream :=
              List.take_of_length_le (by omega)
            have hdrop : stream.drop (min 8192 (filesize - content.length)) = [] :=
              List.drop_eq_nil_of_le (by omega)
            rw [hceq, hdrop,
              List.take_of_length_le (by omega : stream.length ≤ filesize - content.length)]
            simp
        · show (Server.recvLoop filesize _ _ _).2.2 = true ↔ _
          rw [ih2]
          simp only [List.length_drop, List.length_take]
          omega
        · intro e he
          simp only [List.mem_cons] at he
          rcases he with he | he
          · exact ⟨_, he⟩
          · exact ih3 e he
    · rw [Server.recvLoop.eq_def, dif_neg hlt]
      have h0 : filesize - content.length = 0 := by omega
      simp [h0]

/-- The server's download send loop streams exactly its input and sends no
8-byte control values. -/
theorem Server.sendLoop_spec (fuel : Nat) : ∀ rest, rest.length ≤ fuel →
    sentData (Server.sendLoop rest) = rest ∧
    sentU64s (Server.sendLoop rest) = [] := by
  induction fuel with
  | zero =>
    intro rest hf
    have h0 : rest = [] := List.length_eq_zero.mp (Nat.le_zero.mp hf)
    subst h0
    rw [Server.sendLoop.eq_def, dif_pos rfl]
    exact ⟨rfl, rfl⟩
  | succ n ih =>
    intro rest hf
    by_cases h : rest = []
    · subst h
      rw [Server.sendLoop.eq_def, dif_pos rfl]
      exact ⟨rfl, rfl⟩
    · rw [Server.sendLoop.eq_def, dif_neg h]
      simp only [Server.BUF_SIZE]
      obtain ⟨i1, i2⟩ := ih (rest.drop 8192) (by simp only [List.length_drop]; omega)
      simp only [sentData, sentU64s]
      rw [i1, i2]
      exact ⟨List.take_append_drop _ _, rfl⟩

/-- The send loop on an empty remainder does nothing. -/
theorem Server.sendLoop_nil : Server.sendLoop [] = [] := by
  rw [Server.sendLoop.eq_def, dif_pos rfl]

/-- The size the server's `stat` sees is the length of the file's content,
zero when the file is absent. -/
theorem Server.existingSize_eq (file : Option (List Nat)) :
    Server.existingSize file = (file.getD []).length := by
  cases file <;> rfl

/-- Claim C3: for every download request with client offset `L` against a
server file `f` of size `F = f.length`, the server computes
`server_offset = min L F`, replies with the pair `(F, server_offset)` before
any data, then streams exactly the bytes `[server_offset, F)` of its file —
nothing when `server_offset ≥ F` (then `f.drop server_offset = []`), the
already-complete case — and the handler returns success. -/
theorem spec_C3 (f : List Nat) (L : Nat) :
    (Server.handle_download (some f) L).ok = true ∧
    (Server.handle_download (some f) L).trace
        = Ev.sendU64 f.length :: Ev.sendU64 (min L f.length)
            :: Server.sendLoop (f.drop (min L f.length)) ∧
    sentData (Server.handle_download (some f) L).trace
        = f.drop (min L f.length) := by
  have hsd := (Server.sendLoop_spec (f.drop (min L f.length)).length
    (f.drop (min L f.length)) (le_refl _)).1
  simp only [Server.handle_download]
  by_cases hgt : L > f.length
  · rw [if_pos hgt]
    have hmin : min L f.length = f.length := by omega
    rw [if_pos (le_refl f.length)]
    refine ⟨rfl, ?_, ?_⟩
    · rw [hmin, List.drop_length, Server.sendLoop_nil]
    · rw [hmin, List.drop_length]
      rfl
  · rw [if_neg hgt]
    have hmin : min L f.length = L := by omega
    by_cases hge : f.length ≤ L
    · rw [if_pos hge]
      refine ⟨rfl, ?_, ?_⟩
      · rw [hmin, List.drop_eq_nil_of_le (by omega : f.length ≤ L), Server.sendLoop_nil]
      · rw [hmin, List.drop_eq_nil_of_le (by omega : f.length ≤ L)]
        rfl
    · rw [if_neg hge]
      refine ⟨rfl, ?_, ?_⟩
      · rw [hmin]
        rfl
      · rw [hmin] at hsd ⊢
        simp only [List.cons_append, List.nil_append, sentData]
        exact hsd

/-- Claim C2: on an upload request with declared size `S`, the server sends
exactly `agreed_offset = min E S` (where `E` is the size of its existing
copy, `0` when the file is absent) back to the client before any file bytes
are exchanged: the reply is the sixth wire event, everything after it only
receives file data, and no other value is sent. -/
theorem spec_C2 (n : Nat) (name : String) (file : Option (List Nat)) (S : Nat)
    (stream : List Nat) (h1 : 0 < n) (h2 : n < 512) :
    ∃ tr, (Server.handle_client 6 "upload" n name file S stream).trace
        = [Ev.recvU32 6, Ev.recvStr "upload", Ev.recvU32 n, Ev.recvStr name,
           Ev.recvU64 S, Ev.sendU64 (min (Server.existingSize file) S)] ++ tr
      ∧ ∀ e ∈ tr, ∃ b, e = Ev.recvFileBytes b := by
  unfold Server.handle_client
  rw [if_neg (by omega : ¬(6 = 0 ∨ 32 ≤ 6)), if_neg (by omega : ¬(n = 0 ∨ 512 ≤ n)),
    if_pos rfl]
  simp only []
  have hagreed : (if Server.existingSize file > S then S else Server.existingSize file)
      = min (Server.existingSize file) S := by
    rcases Nat.lt_or_ge S (Server.existingSize file) with hlt | hge
    · rw [if_pos hlt]; omega
    · rw [if_neg (by omega)]; omega
  refine ⟨(Server.handle_upload file S
    (if Server.existingSize file > S then S else Server.existingSize file) stream).trace,
    ?_, ?_⟩
  · rw [hagreed]
  · intro e he
    unfold Server.handle_upload at he
    set off := if Server.existingSize file > S then S else Server.existingSize file with hoff
    have hbase : (if (file.getD []).length > off then (file.getD []).take off
        else (file.getD [])).length = off := by
      have hle : off ≤ (file.getD []).length := by
        rw [hoff, ← Server.existingSize_eq]
        rcases Nat.lt_or_ge S (Server.existingSize file) with hlt | hge
        · rw [if_pos hlt]; omega
        · rw [if_neg (by omega)]
      by_cases htr : (file.getD []).length > off
      · rw [if_pos htr, List.length_take]
        omega
      · rw [if_neg htr]
        omega
    exact (Server.recvLoop_spec (S - off) S off _ stream (le_refl _) hbase).2.2 e he

/-- Witness for C2 with a one-byte filename, a 2-byte existing server copy
and declared size 5 (so the negotiated offset is `min 2 5 = 2`). -/
theorem spec_C2_witness :
    ∃ tr, (Server.handle_client 6 "upload" 1 "f" (some [9, 9]) 5 [1, 2, 3]).trace
        = [Ev.recvU32 6, Ev.recvStr "upload", Ev.recvU32 1, Ev.recvStr "f",
           Ev.recvU64 5, Ev.sendU64 (min (Server.existingSize (some [9, 9])) 5)] ++ tr
      ∧ ∀ e ∈ tr, ∃ b, e = Ev.recvFileBytes b :=
  spec_C2 1 "f" (some [9, 9]) 5 [1, 2, 3] (by decide) (by decide)

/-- Claim C1 (counterexample): the server's existing copy `[7, 7]` is longer
than the client's declared size 1; the negotiated offset is `min 2 1 = 1`,
`handle_upload` truncates the file to 1 byte, the receive loop has nothing
left to receive, and the upload completes successfully — leaving the server
with 1 < 2 confirmed bytes, fewer than before the transfer. -/
theorem spec_C1_counterexample :
    (Server.handle_client 6 "upload" 1 "f" (some [7, 7]) 1 []).file = some [7] ∧
    (Server.handle_client 6 "upload" 1 "f" (some [7, 7]) 1 []).ok = true := by
  have hloop : Server.recvLoop 1 1 [7] [] = ([], [7], true) := by
    rw [Server.recvLoop.eq_def, dif_neg (by omega : ¬(1 : Nat) < 1)]
  unfold Server.handle_client
  rw [if_neg (by omega : ¬(6 = 0 ∨ 32 ≤ 6)), if_neg (by omega : ¬(1 = 0 ∨ 512 ≤ 1)),
    if_pos rfl]
  unfold Server.handle_upload
  norm_num [Server.existingSize, hloop]

/-- Claim C1 as amended: whenever the server's existing copy is no longer
than the declared size (`E ≤ S` — in particular always in a genuine resume
of the same file), neither completing nor aborting an upload leaves the
server's file shorter than before, and the previously held bytes are
unchanged; when `E > S` the code instead deliberately truncates the file to
`S` bytes before receiving (see the counterexample), so the unrestricted
claim is false. -/
theorem spec_C1_amended (n : Nat) (name : String) (file : Option (List Nat)) (S : Nat)
    (stream : List Nat) (h1 : 0 < n) (h2 : n < 512)
    (hE : Server.existingSize file ≤ S) :
    ∃ c, (Server.handle_client 6 "upload" n name file S stream).file = some c ∧
      (file.getD []).length ≤ c.length ∧
      c.take (file.getD []).length = file.getD [] := by
  unfold Server.handle_client
  rw [if_neg (by omega : ¬(6 = 0 ∨ 32 ≤ 6)), if_neg (by omega : ¬(n = 0 ∨ 512 ≤ n)),
    if_pos rfl]
  simp only []
  rw [if_neg (by omega : ¬Server.existingSize file > S)]
  unfold Server.handle_upload
  simp only []
  rw [Server.existingSize_eq]
  rw [if_neg (by omega : ¬(file.getD []).length > (file.getD []).length)]
  have hspec := Server.recvLoop_spec (S - (file.getD []).length) S
    (file.getD []).length (file.getD []) stream (le_refl _) rfl
  refine ⟨(file.getD []) ++ stream.take (S - (file.getD []).length), ?_, ?_, ?_⟩
  · simp only [hspec.1]
  · simp only [List.length_append]
    omega
  · exact List.take_left _ _

/-- Witness for C1 as amended: server copy `[7]`, declared size 2, one byte
streamed before the client disconnects — the aborted upload still holds the
original byte. -/
theorem spec_C1_amended_witness :
    ∃ c, (Server.handle_client 6 "upload" 1 "f" (some [7]) 2 [8]).file = some c ∧
      ((some [7] : Option (List Nat)).getD []).length ≤ c.length ∧
      c.take ((some [7] : Option (List Nat)).getD []).length
        = (some [7] : Option (List Nat)).getD [] :=
  spec_C1_amended 1 "f" (some [7]) 2 [8] (by decide) (by decide) (by decide)

/-- Claim C9: a request whose mode length prefix is 0 or ≥ 32, or whose
filename length prefix is 0 or ≥ 512, or whose mode bytes are neither
"upload" nor "download", is dropped: the server sends nothing (every trace
event is a receive), touches no file, and the handler reports failure. -/
theorem spec_C9 (ml : Nat) (mode : String) (nl : Nat) (name : String)
    (file : Option (List Nat)) (x : Nat) (stream : List Nat)
    (h : ml = 0 ∨ 32 ≤ ml ∨ nl = 0 ∨ 512 ≤ nl ∨ (mode ≠ "upload" ∧ mode ≠ "download")) :
    (Server.handle_client ml mode nl name file x stream).file = file ∧
    (Server.handle_client ml mode nl name file x stream).ok = false ∧
    ∀ e ∈ (Server.handle_client ml mode nl name file x stream).trace,
      e.isRecv = true := by
  unfold Server.handle_client
  by_cases hml : ml = 0 ∨ 32 ≤ ml
  · rw [if_pos hml]
    refine ⟨rfl, rfl, ?_⟩
    intro e he
    simp only [List.mem_singleton] at he
    subst he
    rfl
  · rw [if_neg hml]
    by_cases hnl : nl = 0 ∨ 512 ≤ nl
    · rw [if_pos hnl]
      refine ⟨rfl, rfl, ?_⟩
      intro e he
      simp only [List.mem_cons, List.not_mem_nil, or_false] at he
      rcases he with rfl | rfl | rfl <;> rfl
    · have hmode : mode ≠ "upload" ∧ mode ≠ "download" := by tauto
      rw [if_neg hnl, if_neg hmode.1, if_neg hmode.2]
      refine ⟨rfl, rfl, ?_⟩
      intro e he
      simp only [List.mem_cons, List.not_mem_nil, or_false] at he
      rcases he with rfl | rfl | rfl | rfl <;> rfl

/-- Witness for C9 with a zero mode-length prefix. -/
theorem spec_C9_witness :
    (Server.handle_client 0 "u" 1 "f" (some [5]) 3 [1]).file = some [5] ∧
    (Server.handle_client 0 "u" 1 "f" (some [5]) 3 [1]).ok = false ∧
    ∀ e ∈ (Server.handle_client 0 "u" 1 "f" (some [5]) 3 [1]).trace,
      e.isRecv = true :=
  spec_C9 0 "u" 1 "f" (some [5]) 3 [1] (Or.inl rfl)

/-- Value of `bswap32` on an explicit byte decomposition. -/
theorem ByteOrder.bswap32_bytes (c0 c1 c2 c3 : Nat)
    (h0 : c0 < 256) (h1 : c1 < 256) (h2 : c2 < 256) (h3 : c3 < 256) :
    ByteOrder.bswap32 (c0 + c1 * 256 + c2 * 65536 + c3 * 16777216)
      = c3 + c2 * 256 + c1 * 65536 + c0 * 16777216 := by
  unfold ByteOrder.bswap32
  omega

/-- Value of the client's `htonll` on an explicit byte decomposition: it
reverses the eight bytes. -/
theorem Client.htonll_bytes (b0 b1 b2 b3 b4 b5 b6 b7 : Nat)
    (h0 : b0 < 256) (h1 : b1 < 256) (h2 : b2 < 256) (h3 : b3 < 256)
    (h4 : b4 < 256) (h5 : b5 < 256) (h6 : b6 < 256) (h7 : b7 < 256) :
    Client.htonll (b0 + b1 * 256 + b2 * 65536 + b3 * 16777216 +
        b4 * 4294967296 + b5 * 1099511627776 + b6 * 281474976710656 +
        b7 * 72057594037927936)
      = b7 + b6 * 256 + b5 * 65536 + b4 * 16777216 +
        b3 * 4294967296 + b2 * 1099511627776 + b1 * 281474976710656 +
        b0 * 72057594037927936 := by
  have hlo : (b0 + b1 * 256 + b2 * 65536 + b3 * 16777216 +
      b4 * 4294967296 + b5 * 1099511627776 + b6 * 281474976710656 +
      b7 * 72057594037927936) % 4294967296
      = b0 + b1 * 256 + b2 * 65536 + b3 * 16777216 := by omega
  have hhi : (b0 + b1 * 256 + b2 * 65536 + b3 * 16777216 +
      b4 * 4294967296 + b5 * 1099511627776 + b6 * 281474976710656 +
      b7 * 72057594037927936) / 4294967296
      = b4 + b5 * 256 + b6 * 65536 + b7 * 16777216 := by omega
  unfold Client.htonll
  rw [hlo, hhi, ByteOrder.bswap32_bytes b0 b1 b2 b3 h0 h1 h2 h3,
    ByteOrder.bswap32_bytes b4 b5 b6 b7 h4 h5 h6 h7]
  ring

/-- The client's `ntohll` has the same body as its `htonll`. -/
theorem Client.ntohll_eq_htonll (v : Nat) : Client.ntohll v = Client.htonll v := rfl

/-- Value of `u64BytesLE` on an explicit byte decomposition. -/
theorem u64BytesLE_bytes (b0 b1 b2 b3 b4 b5 b6 b7 : Nat)
    (h0 : b0 < 256) (h1 : b1 < 256) (h2 : b2 < 256) (h3 : b3 < 256)
    (h4 : b4 < 256) (h5 : b5 < 256) (h6 : b6 < 256) (h7 : b7 < 256) :
    u64BytesLE (b0 + b1 * 256 + b2 * 65536 + b3 * 16777216 +
        b4 * 4294967296 + b5 * 1099511627776 + b6 * 281474976710656 +
        b7 * 72057594037927936)
      = [b0, b1, b2, b3, b4, b5, b6, b7] := by
  simp only [u64BytesLE, List.cons.injEq, and_true]
  refine ⟨?_, ?_, ?_, ?_, ?_, ?_, ?_, ?_⟩ <;> omega

/-- Value of `u64BytesBE` on an explicit byte decomposition. -/
theorem u64BytesBE_bytes (b0 b1 b2 b3 b4 b5 b6 b7 : Nat)
    (h0 : b0 < 256) (h1 : b1 < 256) (h2 : b2 < 256) (h3 : b3 < 256)
    (h4 : b4 < 256) (h5 : b5 < 256) (h6 : b6 < 256) (h7 : b7 < 256) :
    u64BytesBE (b0 + b1 * 256 + b2 * 65536 + b3 * 16777216 +
        b4 * 4294967296 + b5 * 1099511627776 + b6 * 281474976710656 +
        b7 * 72057594037927936)
      = [b7, b6, b5, b4, b3, b2, b1, b0] := by
  simp only [u64BytesBE, List.cons.injEq, and_true]
  refine ⟨?_, ?_, ?_, ?_, ?_, ?_, ?_, ?_⟩ <;> omega

/-- Claim C8: for every uint64 value `v`, `ntohll (htonll v) = v`, the
client's and the server's `htonll`/`ntohll` compute the same function, and on
a little-endian host the memory bytes of `htonll v` are the big-endian
(network byte order) encoding of `v`. -/
theorem spec_C8 (v : Nat) (h : v < 18446744073709551616) :
    Client.ntohll (Client.htonll v) = v ∧
    Server.htonll v = Client.htonll v ∧
    Server.ntohll v = Client.ntohll v ∧
    u64BytesLE (Client.htonll v) = u64BytesBE v := by
  have hv : v = v % 256 + v / 256 % 256 * 256 + v / 65536 % 256 * 65536 +
      v / 16777216 % 256 * 16777216 + v / 4294967296 % 256 * 4294967296 +
      v / 1099511627776 % 256 * 1099511627776 +
      v / 281474976710656 % 256 * 281474976710656 +
      v / 72057594037927936 % 256 * 72057594037927936 := by omega
  have p0 : v % 256 < 256 := Nat.mod_lt _ (by omega)
  have p1 : v / 256 % 256 < 256 := Nat.mod_lt _ (by omega)
  have p2 : v / 65536 % 256 < 256 := Nat.mod_lt _ (by omega)
  have p3 : v / 16777216 % 256 < 256 := Nat.mod_lt _ (by omega)
  have p4 : v / 4294967296 % 256 < 256 := Nat.mod_lt _ (by omega)
  have p5 : v / 1099511627776 % 256 < 256 := Nat.mod_lt _ (by omega)
  have p6 : v / 281474976710656 % 256 < 256 := Nat.mod_lt _ (by omega)
  have p7 : v / 72057594037927936 % 256 < 256 := Nat.mod_lt _ (by omega)
  refine ⟨?_, rfl, rfl, ?_⟩
  · rw [Client.ntohll_eq_htonll]
    conv_lhs => rw [hv]
    rw [Client.htonll_bytes _ _ _ _ _ _ _ _ p0 p1 p2 p3 p4 p5 p6 p7,
      Client.htonll_bytes _ _ _ _ _ _ _ _ p7 p6 p5 p4 p3 p2 p1 p0]
    omega
  · conv_lhs => rw [hv]
    conv_rhs => rw [hv]
    rw [Client.htonll_bytes _ _ _ _ _ _ _ _ p0 p1 p2 p3 p4 p5 p6 p7,
      u64BytesLE_bytes _ _ _ _ _ _ _ _ p7 p6 p5 p4 p3 p2 p1 p0,
      u64BytesBE_bytes _ _ _ _ _ _ _ _ p0 p1 p2 p3 p4 p5 p6 p7]

/-- Claim C5 (bug demonstration): after an interrupted `recv` has set
`errno = EINTR`, a zero-length underlying read (the peer closing the stream)
is NOT reported as a failure by the server's `recv_all` — the `n <= 0` branch
re-checks the stale `errno` and retries, here going on to consume a later
byte and report success, while the client's `recv_all` on the very same trace
correctly fails at the zero-length read. -/
theorem spec_C5_bug :
    Server.recv_all 1 Errno.eother [NetEv.fail Errno.eintr, NetEv.bytes 0, NetEv.bytes 1]
      = IOResult.ok 1 ∧
    Client.recv_all 1 [NetEv.fail Errno.eintr, NetEv.bytes 0, NetEv.bytes 1]
      = IOResult.fail := by
  decide

/-- Witness for C8 at a concrete 64-bit value. -/
theorem spec_C8_witness :
    81985529216486895 < 18446744073709551616 ∧
    (Client.ntohll (Client.htonll 81985529216486895) = 81985529216486895 ∧
     Server.htonll 81985529216486895 = Client.htonll 81985529216486895 ∧
     Server.ntohll 81985529216486895 = Client.ntohll 81985529216486895 ∧
     u64BytesLE (Client.htonll 81985529216486895) = u64BytesBE 81985529216486895) :=
  ⟨by decide, spec_C8 81985529216486895 (by decide)⟩

/-- Recording one more value shifts the default of `lastRecorded`. -/
theorem lastRecorded_cons (d : Option Nat) (a : Nat) (l : List Nat) :
    lastRecorded d (a :: l) = lastRecorded (some a) l := rfl

/-- After the upload send loop, the ledger on disk holds the last value the
loop recorded, or its initial value if the loop recorded nothing. -/
theorem Client.uploadLoop_ledger (fuel : Nat) : ∀ cap rest total sentBytes ledger,
    rest.length ≤ fuel →
    (Client.uploadLoop cap rest total sentBytes ledger).ledger
      = lastRecorded ledger (Client.uploadLoop cap rest total sentBytes ledger).recorded := by
  induction fuel with
  | zero =>
    intro cap rest total sentBytes ledger hf
    have h0 : rest = [] := List.length_eq_zero.mp (Nat.le_zero.mp hf)
    subst h0
    rw [Client.uploadLoop.eq_def, dif_pos rfl]
    rfl
  | succ n ih =>
    intro cap rest total sentBytes ledger hf
    by_cases h : rest = []
    · subst h
      rw [Client.uploadLoop.eq_def, dif_pos rfl]
      rfl
    · rw [Client.uploadLoop.eq_def, dif_neg h]
      simp only [Client.CHUNK]
      by_cases hsend : Client.sendOk cap (sentBytes + (rest.take 8192).length) = true
      · rw [if_pos hsend]
        have := ih cap (rest.drop 8192) (total + (rest.take 8192).length)
          (sentBytes + (rest.take 8192).length)
          (some (total + (rest.take 8192).length))
          (by simp only [List.length_drop]; omega)
        simp only []
        rw [lastRecorded_cons]
        exact this
      · rw [if_neg hsend]
        rfl

/-- After the download receive loop, the ledger on disk holds the last value
the loop recorded, or its initial value if the loop recorded nothing. -/
theorem Client.downLoop_ledger (fuel : Nat) : ∀ filesize total content stream ledger,
    filesize - total ≤ fuel →
    (Client.downLoop filesize total content stream ledger).ledger
      = lastRecorded ledger (Client.downLoop filesize total content stream ledger).recorded := by
  induction fuel with
  | zero =>
    intro filesize total content stream ledger hf
    rw [Client.downLoop.eq_def, dif_neg (by omega : ¬total < filesize)]
    rfl
  | succ n ih =>
    intro filesize total content stream ledger hf
    by_cases hlt : total < filesize
    · rw [Client.downLoop.eq_def, dif_pos hlt]
      simp only [Client.CHUNK]
      by_cases hshort : stream.length < min 8192 (filesize - total)
      · rw [if_pos hshort]
        rfl
      · rw [if_neg hshort]
        have := ih filesize (total + min 8192 (filesize - total))
          (writeAt content total (stream.take (min 8192 (filesize - total))))
          (stream.drop (min 8192 (filesize - total)))
          (some (total + min 8192 (filesize - total)))
          (by omega)
        simp only []
        rw [lastRecorded_cons]
        exact this
    · rw [Client.downLoop.eq_def, dif_neg hlt]
      rfl

/-- Claim C4: an offset received from the server that exceeds the relevant
size is treated as a protocol violation and aborts before streaming: the
upload client fails when `agreed_offset` exceeds its declared file size, the
download client fails when `server_offset` exceeds the reported file size,
and in both cases the transfer returns failure with no file-data events on
the wire (and the download leaves the local file untouched). -/
theorem spec_C4 :
    (∀ name f agreed cap ledger, f.length < agreed →
      (Client.client_upload name (some f) agreed cap ledger).ok = false ∧
      dataEvents (Client.client_upload name (some f) agreed cap ledger).trace = []) ∧
    (∀ name file filesize server_offset stream ledger, filesize < server_offset →
      (Client.client_download name file filesize server_offset stream ledger).ok = false ∧
      dataEvents
        (Client.client_download name file filesize server_offset stream ledger).trace = [] ∧
      (Client.client_download name file filesize server_offset stream ledger).file
        = some (file.getD [])) := by
  constructor
  · intro name f agreed cap ledger hgt
    unfold Client.client_upload
    simp only []
    rw [if_pos hgt]
    exact ⟨rfl, by simp [dataEvents]⟩
  · intro name file filesize server_offset stream ledger hgt
    unfold Client.client_download
    simp only []
    rw [if_pos hgt]
    exact ⟨rfl, by simp [dataEvents], rfl⟩

/-- Witness for C4: an upload offered offset 2 for a 1-byte file, and a
download offered offset 1 for a size-0 file. -/
theorem spec_C4_witness :
    ((Client.client_upload "f" (some [1]) 2 none none).ok = false ∧
     dataEvents (Client.client_upload "f" (some [1]) 2 none none).trace = []) ∧
    ((Client.client_download "g" (some [3]) 0 1 [] (some 2)).ok = false ∧
     dataEvents (Client.client_download "g" (some [3]) 0 1 [] (some 2)).trace = [] ∧
     (Client.client_download "g" (some [3]) 0 1 [] (some 2)).file
       = some ((some [3] : Option (List Nat)).getD [])) :=
  ⟨spec_C4.1 "f" [1] 2 none none (by decide),
   spec_C4.2 "g" (some [3]) 0 1 [] (some 2) (by decide)⟩

/-- Claim C7: a client transfer (upload or download) that reports success
leaves no progress-ledger file, and a transfer attempt that fails leaves the
ledger with the last value recorded during the attempt — or its prior
content when the attempt recorded nothing — so a later retry can resume. -/
theorem spec_C7 :
    (∀ name file agreed cap ledger,
      ((Client.client_upload name file agreed cap ledger).ok = true →
        (Client.client_upload name file agreed cap ledger).ledger = none) ∧
      ((Client.client_upload name file agreed cap ledger).ok = false →
        (Client.client_upload name file agreed cap ledger).ledger
          = lastRecorded ledger (Client.client_upload name file agreed cap ledger).recorded)) ∧
    (∀ name file filesize server_offset stream ledger,
      ((Client.client_download name file filesize server_offset stream ledger).ok = true →
        (Client.client_download name file filesize server_offset stream ledger).ledger
          = none) ∧
      ((Client.client_download name file filesize server_offset stream ledger).ok = false →
        (Client.client_download name file filesize server_offset stream ledger).ledger
          = lastRecorded ledger
              (Client.client_download name file filesize server_offset stream ledger).recorded)) := by
  constructor
  · intro name file agreed cap ledger
    unfold Client.client_upload
    cases file with
    | none => exact ⟨fun h => by simp at h, fun _ => rfl⟩
    | some f =>
      simp only []
      by_cases hgt : agreed > f.length
      · rw [if_pos hgt]
        exact ⟨fun h => by simp at h, fun _ => rfl⟩
      · rw [if_neg hgt]
        cases hok : (Client.uploadLoop cap (f.drop agreed) agreed 0 ledger).ok with
        | true =>
          rw [if_pos rfl]
          exact ⟨fun _ => rfl, fun h => by simp at h⟩
        | false =>
          rw [if_neg (by simp : ¬false = true)]
          refine ⟨fun h => by simp at h, fun _ => ?_⟩
          exact Client.uploadLoop_ledger (f.drop agreed).length cap
            (f.drop agreed) agreed 0 ledger (le_refl _)
  · intro name file filesize server_offset stream ledger
    unfold Client.client_download
    simp only []
    by_cases hgt : server_offset > filesize
    · rw [if_pos hgt]
      exact ⟨fun h => by simp at h, fun _ => rfl⟩
    · rw [if_neg hgt]
      cases hok : (Client.downLoop filesize server_offset (file.getD []) stream ledger).ok with
      | true =>
        rw [if_pos rfl]
        exact ⟨fun _ => rfl, fun h => by simp at h⟩
      | false =>
        rw [if_neg (by simp : ¬false = true)]
        refine ⟨fun h => by simp at h, fun _ => ?_⟩
        exact Client.downLoop_ledger (filesize - server_offset) filesize
          server_offset (file.getD []) stream ledger (le_refl _)

/-- Witness for C7: a completed 1-byte upload clears the ledger; a download
whose server stream ends immediately leaves the prior ledger value `some 5`
(`lastRecorded (some 5) []`) in place. -/
theorem spec_C7_witness :
    (Client.client_upload "f" (some [3]) 0 none (some 9)).ledger = none ∧
    (Client.client_download "g" (some []) 1 0 [] (some 5)).ledger
      = lastRecorded (some 5)
          (Client.client_download "g" (some []) 1 0 [] (some 5)).recorded := by
  constructor
  · refine (spec_C7.1 "f" (some [3]) 0 none (some 9)).1 ?_
    have h1 : Client.uploadLoop none [] 1 1 (some 1)
        = ⟨[], [], some 1, [], true⟩ := by
      rw [Client.uploadLoop.eq_def, dif_pos rfl]
    have h0 : Client.uploadLoop none [3] 0 0 (some 9)
        = ⟨[Ev.sendFileBytes [3]], [], some 1, [1], true⟩ := by
      rw [Client.uploadLoop.eq_def,
        dif_neg (by simp : ¬([3] : List Nat) = [])]
      norm_num [Client.CHUNK, Client.sendOk, h1]
    simp [Client.client_upload, h0]
  · refine (spec_C7.2 "g" (some []) 1 0 [] (some 5)).2 ?_
    have h0 : Client.downLoop 1 0 [] [] (some 5)
        = ⟨[], [], some 5, [], false⟩ := by
      rw [Client.downLoop.eq_def, dif_pos (by omega : (0 : Nat) < 1)]
      norm_num [Client.CHUNK]
    simp [Client.client_download, h0]

/-- Claim C6: every run of `write_progress_atomic` passes only through
filesystem states in which the ledger path `fname.progress` holds either its
complete previous value or the complete new value `encodeProgress v` — all
partial content lives only at the temporary path until the atomic rename —
and the final state holds the new value with the temporary gone. -/
theorem spec_C6 (fs : FileSys) (fname : String) (v : Nat) :
    (∀ s ∈ Client.write_progress_atomic fs fname v,
        s (fname ++ ".progress") = fs (fname ++ ".progress") ∨
        s (fname ++ ".progress") = some (encodeProgress v)) ∧
    (∀ sfin, (Client.write_progress_atomic fs fname v).getLast? = some sfin →
        sfin (fname ++ ".progress") = some (encodeProgress v) ∧
        sfin (fname ++ ".progress.tmp") = none) := by
  have hlp : (".progress" : String).length = 9 := rfl
  have hlt : (".progress.tmp" : String).length = 13 := rfl
  have hne : fname ++ ".progress" ≠ fname ++ ".progress.tmp" := by
    intro h
    have hl := congrArg String.length h
    rw [String.length_append, String.length_append, hlp, hlt] at hl
    omega
  constructor
  · intro s hs
    simp only [Client.write_progress_atomic, List.mem_cons, List.mem_append,
      List.mem_map, List.mem_range, List.mem_singleton] at hs
    rcases hs with (rfl | ⟨k, hk, rfl⟩) | (rfl | hmem)
    · exact Or.inl rfl
    · left
      simp [fsWrite, hne]
    · right
      simp [fsWrite, hne]
    · cases hmem
  · intro sfin hlast
    have hcat : ∀ (x r : FileSys) (l : List FileSys),
        (x :: (l ++ [r])).getLast? = some r := by
      intro x r l
      rw [← List.cons_append, List.getLast?_concat]
    have h2 : (Client.write_progress_atomic fs fname v).getLast?
        = some (fsWrite (fsWrite (fsWrite fs (fname ++ ".progress.tmp")
            (some (encodeProgress v))) (fname ++ ".progress")
            (some (encodeProgress v))) (fname ++ ".progress.tmp") none) := by
      simp only [Client.write_progress_atomic]
      exact hcat _ _ _
    rw [h2] at hlast
    have hfin := (Option.some.injEq _ _).mp hlast
    subst hfin
    constructor
    · simp [fsWrite, hne]
    · simp [fsWrite]

/-- Witness for C6 at the initial state of a run over the empty filesystem. -/
theorem spec_C6_witness :
    (fun _ => none : FileSys) ("f" ++ ".progress")
        = (fun _ => none : FileSys) ("f" ++ ".progress") ∨
    (fun _ => none : FileSys) ("f" ++ ".progress") = some (encodeProgress 7) :=
  (spec_C6 (fun _ => none) "f" 7).1 (fun _ => none)
    (by simp only [Client.write_progress_atomic]
        exact List.mem_cons_self _ _)

/-- Claim C10: when the client's local copy is strictly longer than the
server's file (`F = sf.length < cf.length = L`), the server negotiates
`server_offset = F` and streams nothing, the client reports success, clears
its ledger, and its local file is left exactly as it was — length `L` with
the bytes `[F, L)` untouched; the completed download never truncates the
local file down to `F`. -/
theorem spec_C10 (name : String) (sf cf : List Nat) (ledger : Option Nat)
    (h : sf.length < cf.length) :
    sentU64s (Server.handle_download (some sf) cf.length).trace
        = [sf.length, sf.length] ∧
    sentData (Server.handle_download (some sf) cf.length).trace = [] ∧
    (download_session name sf cf ledger).ok = true ∧
    (download_session name sf cf ledger).file = some cf ∧
    (download_session name sf cf ledger).ledger = none := by
  have hdl : Server.handle_download (some sf) cf.length
      = ⟨[Ev.sendU64 sf.length, Ev.sendU64 sf.length], some sf, true⟩ := by
    simp only [Server.handle_download]
    rw [if_pos h, if_pos (le_refl sf.length)]
  have hloop : Client.downLoop sf.length sf.length cf [] ledger
      = ⟨[], cf, ledger, [], true⟩ := by
    rw [Client.downLoop.eq_def, dif_neg (by omega : ¬sf.length < sf.length)]
  have hsess : download_session name sf cf ledger
      = Client.client_download name (some cf) sf.length sf.length [] ledger := by
    unfold download_session
    rw [hdl]
    rfl
  have hcd : Client.client_download name (some cf) sf.length sf.length [] ledger
      = ⟨[Ev.sendU32 ("download".length), Ev.sendStr "download",
          Ev.sendU32 name.length, Ev.sendStr name, Ev.sendU64 cf.length,
          Ev.recvU64 sf.length, Ev.recvU64 sf.length] ++ [],
         none, [], true, some cf⟩ := by
    unfold Client.client_download
    simp only [Option.getD_some]
    rw [if_neg (by omega : ¬sf.length < sf.length), hloop, if_pos rfl]
  refine ⟨?_, ?_, ?_, ?_, ?_⟩
  · rw [hdl]
    rfl
  · rw [hdl]
    rfl
  · rw [hsess, hcd]
  · rw [hsess, hcd]
  · rw [hsess, hcd]

/-- Witness for C10: server file `[1]`, client file `[1, 2]`. -/
theorem spec_C10_witness :
    sentU64s (Server.handle_download (some [1]) ([1, 2] : List Nat).length).trace
        = [([1] : List Nat).length, ([1] : List Nat).length] ∧
    sentData (Server.handle_download (some [1]) ([1, 2] : List Nat).length).trace = [] ∧
    (download_session "f" [1] [1, 2] none).ok = true ∧
    (download_session "f" [1] [1, 2] none).file = some [1, 2] ∧
    (download_session "f" [1] [1, 2] none).ledger = none :=
  spec_C10 "f" [1] [1, 2] none (by decide)
